import Mathlib

/-!
A shallow embedding in Lean 4 of the Python file `try.py` (a collection of
small utilities: a `Calculator` class, Fibonacci and prime helpers, a
file-size formatter, a retry decorator and JSON file helpers), together with
theorems settling the specification's claims about it.

Python numbers handled by the `Calculator` and `format_file_size` are
modelled as exact rationals `ℚ`: every arithmetic operation these functions
perform (`+`, `-`, `*`, true division `/`, division by `1024.0`) is exact on
the integer-valued inputs the specification exercises, so `ℚ` is a faithful
model there.  Python `int` values (`fibonacci`, `is_prime`, `find_primes`,
`retry`'s `max_attempts`) are modelled as `ℤ`.
-/

/-- Models the rendering of a Python number inside an f-string
(`f"{a} + {b} = {result}"`).  An integer-valued number prints with no
decimal point, as a Python `int` does (`str(5) = "5"`); a non-integral
rational stands in for a Python float and prints as `num/den`. -/
def numRepr (q : ℚ) : String :=
  if q.den = 1 then toString q.num else toString q.num ++ "/" ++ toString q.den

/-- The `Calculator` class of `try.py`: its only field is
`self.history: List[str]`, initialised to `[]` by `__init__`. -/
structure Calculator where
  history : List String
deriving DecidableEq

/-- `Calculator()` — `__init__` sets `self.history = []`. -/
def Calculator.new : Calculator := ⟨[]⟩

/-- `Calculator.add`: computes `a + b`, appends `f"{a} + {b} = {result}"` to
the history, returns the result.  State-passing style: the returned pair is
(return value, updated object). -/
def Calculator.add (c : Calculator) (a b : ℚ) : ℚ × Calculator :=
  let result := a + b
  (result, ⟨c.history ++ [numRepr a ++ " + " ++ numRepr b ++ " = " ++ numRepr result]⟩)

/-- `Calculator.subtract`: computes `a - b`, appends the formatted entry,
returns the result. -/
def Calculator.subtract (c : Calculator) (a b : ℚ) : ℚ × Calculator :=
  let result := a - b
  (result, ⟨c.history ++ [numRepr a ++ " - " ++ numRepr b ++ " = " ++ numRepr result]⟩)

/-- `Calculator.multiply`: computes `a * b`, appends the formatted entry,
returns the result. -/
def Calculator.multiply (c : Calculator) (a b : ℚ) : ℚ × Calculator :=
  let result := a * b
  (result, ⟨c.history ++ [numRepr a ++ " * " ++ numRepr b ++ " = " ++ numRepr result]⟩)

/-- `Calculator.divide`: raises `ValueError("Cannot divide by zero")` when
`b == 0` — the `raise` happens before the `append`, so in the error case no
entry is produced and the object is untouched (`Except.error` carries no
updated state).  Otherwise computes `a / b`, appends the entry, returns. -/
def Calculator.divide (c : Calculator) (a b : ℚ) : Except String (ℚ × Calculator) :=
  if b = 0 then Except.error "Cannot divide by zero"
  else
    let result := a / b
    Except.ok (result, ⟨c.history ++ [numRepr a ++ " / " ++ numRepr b ++ " = " ++ numRepr result]⟩)

/-- `Calculator.get_history` returns `self.history.copy()`; in the pure
value model the copy is just the value of the list (aliasing is modelled
separately, with an explicit store, for the frame claim). -/
def Calculator.get_history (c : Calculator) : List String :=
  c.history

/-- One call to an arithmetic method of `Calculator`, with its two
arguments; used to state the history invariant over arbitrary call
sequences. -/
inductive CalcOp : Type
  | addOp (a b : ℚ)
  | subOp (a b : ℚ)
  | mulOp (a b : ℚ)
  | divOp (a b : ℚ)
deriving DecidableEq

/-- Executes one method call on the calculator and returns the updated
object.  For `divide` with `b == 0` the Python call raises before touching
`self.history`, so the object is returned unchanged. -/
def applyOp (c : Calculator) : CalcOp → Calculator
  | CalcOp.addOp a b => (c.add a b).2
  | CalcOp.subOp a b => (c.subtract a b).2
  | CalcOp.mulOp a b => (c.multiply a b).2
  | CalcOp.divOp a b =>
    match c.divide a b with
    | Except.ok (_, c') => c'
    | Except.error _ => c

/-- Runs a sequence of method calls left to right. -/
def runOps (c : Calculator) : List CalcOp → Calculator
  | [] => c
  | op :: ops => runOps (applyOp c op) ops

/-- The history entry a call appends: `some` formatted string for a
successful call, `none` for a `divide` by zero (which raises and appends
nothing). -/
def opEntry : CalcOp → Option String
  | CalcOp.addOp a b => some (numRepr a ++ " + " ++ numRepr b ++ " = " ++ numRepr (a + b))
  | CalcOp.subOp a b => some (numRepr a ++ " - " ++ numRepr b ++ " = " ++ numRepr (a - b))
  | CalcOp.mulOp a b => some (numRepr a ++ " * " ++ numRepr b ++ " = " ++ numRepr (a * b))
  | CalcOp.divOp a b =>
    if b = 0 then none
    else some (numRepr a ++ " / " ++ numRepr b ++ " = " ++ numRepr (a / b))

/-!
An explicit-store model of `get_history`, for the frame claim about
`self.history.copy()`.  Python lists are mutable heap objects; a store maps
references (indices) to list contents, and the calculator object holds a
reference to its history list.
-/

/-- The heap: cell `r` holds the contents of the Python list referenced by
`r`.  Absent cells read as `[]`. -/
abbrev Store := List (List String)

/-- Reads the list a reference points to. -/
def readRef (s : Store) (r : ℕ) : List String :=
  List.getD s r []

/-- In-place mutation of the list a reference points to (models the caller
mutating a list object, e.g. `lst.append(...)` replacing its contents). -/
def writeRef (s : Store) (r : ℕ) (v : List String) : Store :=
  List.set s r v

/-- A `Calculator` object in the store model: it holds a reference to its
history list. -/
structure HCalc where
  historyRef : ℕ

/-- `get_history` in the store model: `self.history.copy()` allocates a
fresh list cell holding a copy of the current contents and returns a
reference to it. -/
def get_historyRef (s : Store) (c : HCalc) : ℕ × Store :=
  (List.length s, s ++ [readRef s c.historyRef])

/-!  Number-theoretic utilities of `try.py`. -/

/-- `fibonacci`'s loop `for i in range(2, n): fib.append(fib[i-1] + fib[i-2])`.
At each iteration Python's loop index `i` equals `len(fib)`, so `fib[i-1]`
and `fib[i-2]` are the last two elements; the fuel argument counts the
remaining iterations (`n - i`).  Indexing is via `getD` with default `0`;
both indices are always in range, so the default is never consulted. -/
def fibLoop : List ℤ → ℕ → List ℤ
  | fib, 0 => fib
  | fib, k + 1 =>
    fibLoop (fib ++ [List.getD fib (fib.length - 1) 0 + List.getD fib (fib.length - 2) 0]) k

/-- `fibonacci(n)`: `[]` for `n <= 0`, `[0]` for `n == 1`, `[0, 1]` for
`n == 2`, otherwise the loop extends `[0, 1]` through indices
`range(2, n)`. -/
def fibonacci (n : ℤ) : List ℤ :=
  if n ≤ 0 then []
  else if n = 1 then [0]
  else if n = 2 then [0, 1]
  else fibLoop [0, 1] (n.toNat - 2)

/-- Helper for `intSqrt`: climbs from candidate `k` while `(k+1)^2` still
fits below `n`; the fuel bounds the climb (and is never exhausted when it
starts at `n`). -/
def intSqrtAux (n : ℕ) : ℕ → ℕ → ℕ
  | 0, k => k
  | fuel + 1, k => if (k + 1) * (k + 1) ≤ n then intSqrtAux n fuel (k + 1) else k

/-- The integer square root — the value of Python's `int(num ** 0.5)` (the
float power and truncation produce the floor of the square root on the
ranges discussed).  Proven equal to `Nat.sqrt` below; defined by fuelled
climbing so it evaluates by kernel reduction. -/
def intSqrt (n : ℕ) : ℕ := intSqrtAux n n 0

/-- `is_prime(num)`: `False` for `num < 2`, `True` for `2`, `False` for
other even numbers, otherwise trial division by the odd numbers
`range(3, int(num ** 0.5) + 1, 2)`; `range(a, b, 2)` is `List.range' a k 2`
with `k = (b - a + 1) / 2` elements. -/
def is_prime (num : ℤ) : Bool :=
  if num < 2 then false
  else if num = 2 then true
  else if num % 2 = 0 then false
  else (List.range' 3 ((intSqrt num.toNat + 1 - 3 + 1) / 2) 2).all fun i => num % (i : ℤ) != 0

/-- `find_primes(limit)`: the list comprehension
`[num for num in range(2, limit + 1) if is_prime(num)]`; `range(2, limit+1)`
is the list `2, 3, ..., limit` (empty when `limit < 2`). -/
def find_primes (limit : ℤ) : List ℤ :=
  List.filter (fun num => is_prime num)
    ((List.range (limit + 1 - 2).toNat).map fun k : ℕ => (2 : ℤ) + (k : ℤ))

/-!  `format_file_size` and its `"%.1f"`-style rendering. -/

/-- Round-half-even of a rational to an integer — the rounding Python's
`f"{x:.1f}"` applies (after scaling by 10).  The floor is computed as
`num.fdiv den`, which is exactly the floor for a reduced rational with
positive denominator. -/
def roundHalfEven (q : ℚ) : ℤ :=
  if q - (q.num.fdiv q.den : ℤ) < 1 / 2 then q.num.fdiv q.den
  else if (1 : ℚ) / 2 < q - (q.num.fdiv q.den : ℤ) then q.num.fdiv q.den + 1
  else if q.num.fdiv q.den % 2 = 0 then q.num.fdiv q.den else q.num.fdiv q.den + 1

/-- Python's `f"{x:.1f}"`: the number rendered with exactly one digit after
the decimal point, rounding half to even. -/
def formatOneDecimal (q : ℚ) : String :=
  if roundHalfEven (q * 10) < 0 then
    "-" ++ toString ((roundHalfEven (q * 10)).natAbs / 10) ++ "." ++
      toString ((roundHalfEven (q * 10)).natAbs % 10)
  else
    toString ((roundHalfEven (q * 10)).natAbs / 10) ++ "." ++
      toString ((roundHalfEven (q * 10)).natAbs % 10)

/-- The `for unit in ['B', 'KB', 'MB', 'GB', 'TB']` loop of
`format_file_size`: return `f"{size_bytes:.1f} {unit}"` at the first unit
where `size_bytes < 1024.0`, else divide by `1024.0` and continue; after
the loop return `f"{size_bytes:.1f} PB"`. -/
def formatLoop : ℚ → List String → String
  | size_bytes, [] => formatOneDecimal size_bytes ++ " PB"
  | size_bytes, unit :: rest =>
    if size_bytes < 1024 then formatOneDecimal size_bytes ++ " " ++ unit
    else formatLoop (size_bytes / 1024) rest

/-- `format_file_size(size_bytes)`. -/
def format_file_size (size_bytes : ℚ) : String :=
  formatLoop size_bytes ["B", "KB", "MB", "GB", "TB"]

/-!  The `retry` decorator. -/

/-- The observable outcome of calling a Python function: a normal return
(`ret`, with `none` standing for Python's `None`) or a raised exception
(`exn`). -/
inductive PyResult (E A : Type) : Type
  | ret : Option A → PyResult E A
  | exn : E → PyResult E A
deriving DecidableEq

/-- `True` exactly when the outcome is a raised exception. -/
def PyResult.isExn {E A : Type} : PyResult E A → Bool
  | PyResult.exn _ => true
  | _ => false

/-- The `for attempt in range(max_attempts)` loop of `retry`'s `wrapper`.
The wrapped function is modelled by its behaviour per call: `f i` is what
the `i`-th invocation does (`Except.ok` a return value, `Except.error` a
raised exception).  The second component counts how many times `func` was
invoked.  The fuel is the number of remaining loop iterations; `attempt ==
max_attempts - 1` becomes `remaining fuel = 1`. -/
def retryGo {E A : Type} (f : ℕ → Except E A) (i : ℕ) : ℕ → PyResult E A × ℕ
  | 0 => (PyResult.ret none, 0)
  | fuel + 1 =>
    match f i with
    | Except.ok a => (PyResult.ret (some a), 1)
    | Except.error e =>
      if fuel = 0 then (PyResult.exn e, 1)
      else
        let rest := retryGo f (i + 1) fuel
        (rest.1, rest.2 + 1)

/-- `retry(max_attempts)(func)(...)`: runs the attempt loop; when
`max_attempts <= 0` the loop body never executes and the wrapper falls
through to `return None` with zero invocations of `func`. -/
def retry {E A : Type} (max_attempts : ℤ) (f : ℕ → Except E A) : PyResult E A × ℕ :=
  retryGo f 0 max_attempts.toNat

/-- A function that raises an exception on every call. -/
def alwaysRaises : ℕ → Except String Unit := fun _ => Except.error "boom"

/-!  `read_json_file`. -/

/-- JSON values, the possible results of `json.load`. -/
inductive JsonValue : Type
  | null : JsonValue
  | bool : Bool → JsonValue
  | num : ℚ → JsonValue
  | str : String → JsonValue
  | arr : List JsonValue → JsonValue
  | obj : List (String × JsonValue) → JsonValue

/-- `read_json_file(filepath)`.  The filesystem is a map from paths to file
contents (`none` = the `open` raises `FileNotFoundError`), and `json_load`
models the standard library's `json.load` (`Except.error` = it raises
`json.JSONDecodeError`, carrying the text interpolated into the message).
The second component is the console output (`print` calls); `{}` is
`JsonValue.obj []`. -/
def read_json_file (json_load : String → Except String JsonValue)
    (fs : String → Option String) (filepath : String) : JsonValue × List String :=
  match fs filepath with
  | none => (JsonValue.obj [], ["File " ++ filepath ++ " not found"])
  | some contents =>
    match json_load contents with
    | Except.error e => (JsonValue.obj [], ["Error parsing JSON: " ++ e])
    | Except.ok v => (v, [])

/-!  Helper lemmas. -/

theorem intSqrtAux_eq (n : ℕ) : ∀ fuel k, k ≤ Nat.sqrt n → Nat.sqrt n ≤ k + fuel →
    intSqrtAux n fuel k = Nat.sqrt n := by
  intro fuel
  induction fuel with
  | zero => intro k h1 h2; simp only [intSqrtAux]; omega
  | succ m ih =>
    intro k h1 h2
    rw [intSqrtAux]
    by_cases h : (k + 1) * (k + 1) ≤ n
    · rw [if_pos h]
      exact ih (k + 1) (Nat.le_sqrt.mpr h) (by omega)
    · rw [if_neg h]
      have : Nat.sqrt n < k + 1 := Nat.sqrt_lt.mpr (by omega)
      omega

theorem intSqrt_eq (n : ℕ) : intSqrt n = Nat.sqrt n :=
  intSqrtAux_eq n n 0 (Nat.zero_le _) (by simpa using Nat.sqrt_le_self n)

/-- Trial division by the odd numbers up to the square root decides
primality of an odd number `n ≥ 3`. -/
theorem trialDivision_iff (n : ℕ) (h3 : 3 ≤ n) (hodd : n % 2 = 1) :
    ((∀ i ∈ List.range' 3 ((Nat.sqrt n + 1 - 3 + 1) / 2) 2, n % i ≠ 0) ↔ Nat.Prime n) := by
  constructor
  · intro hall
    rw [Nat.prime_def_le_sqrt]
    refine ⟨by omega, fun m hm2 hmsqrt hdvd => ?_⟩
    rcases Nat.even_or_odd m with hme | hmo
    · obtain ⟨t, ht⟩ := hme
      obtain ⟨c, hc⟩ := dvd_trans (⟨t, by omega⟩ : 2 ∣ m) hdvd
      omega
    · obtain ⟨j, hj⟩ := hmo
      have hmem : m ∈ List.range' 3 ((Nat.sqrt n + 1 - 3 + 1) / 2) 2 := by
        rw [List.mem_range']
        exact ⟨(m - 3) / 2, by omega, by omega⟩
      exact hall m hmem (Nat.dvd_iff_mod_eq_zero.mp hdvd)
  · intro hp i hi hmod
    rw [List.mem_range'] at hi
    obtain ⟨t, ht, hit⟩ := hi
    have hdvd : i ∣ n := Nat.dvd_iff_mod_eq_zero.mpr hmod
    have hor := hp.eq_one_or_self_of_dvd i hdvd
    have hlt : Nat.sqrt n < n := Nat.sqrt_lt_self (by omega)
    omega

/-- `is_prime` agrees with the mathematical primality predicate.  For
`num : ℤ`, "`num` is a prime number" is `Nat.Prime num.toNat` (a negative
`num` has `toNat = 0`, which is not prime, matching the usual reading). -/
theorem is_prime_iff (num : ℤ) : is_prime num = true ↔ Nat.Prime num.toNat := by
  by_cases h2 : num < 2
  · simp only [is_prime, if_pos h2, Bool.false_eq_true, false_iff]
    intro hp
    have := hp.two_le
    omega
  · by_cases he : num = 2
    · subst he
      simp only [is_prime]
      norm_num
      exact Nat.prime_two
    · by_cases hev : num % 2 = 0
      · simp only [is_prime, if_neg h2, if_neg he, if_pos hev, Bool.false_eq_true, false_iff]
        intro hp
        have h4 : 4 ≤ num.toNat := by omega
        have heven : Even num.toNat := Nat.even_iff.mpr (by omega)
        have := (Nat.Prime.even_iff hp).mp heven
        omega
      · simp only [is_prime, if_neg h2, if_neg he, if_neg hev]
        rw [intSqrt_eq, List.all_eq_true]
        have hn : num = (num.toNat : ℤ) := by omega
        have h3 : 3 ≤ num.toNat := by omega
        have hodd : num.toNat % 2 = 1 := by omega
        rw [← trialDivision_iff num.toNat h3 hodd]
        constructor
        · intro h i hi
          have := h i hi
          rw [hn] at this
          simp only [bne_iff_ne, ne_eq] at this
          omega
        · intro h i hi
          have := h i hi
          simp only [bne_iff_ne, ne_eq]
          rw [hn]
          omega

/-!  Claim C1. -/

/-- C1: `is_prime` decides primality — for every integer `num`,
`is_prime(num)` returns `True` iff `num` is a prime number (for `num : ℤ`
this is `Nat.Prime num.toNat`; any `num < 2`, negatives included, is not
one); in particular `is_prime(17) = True`, `is_prime(1) = False`, and
`is_prime` returns `False` for every `num < 2`. -/
theorem is_prime_decides_primality :
    (∀ num : ℤ, (is_prime num = true ↔ Nat.Prime num.toNat) ∧
      (num < 2 → is_prime num = false)) ∧
    is_prime 17 = true ∧ is_prime 1 = false := by
  refine ⟨fun num => ⟨is_prime_iff num, fun h => ?_⟩, by decide, by decide⟩
  cases hb : is_prime num with
  | false => rfl
  | true =>
    have := (is_prime_iff num).mp hb
    have := this.two_le
    omega

/-- Witness for C1: the hypothesis `num < 2` is discharged at `num = -7`. -/
theorem is_prime_decides_primality_witness :
    is_prime (-7) = false :=
  (is_prime_decides_primality.1 (-7)).2 (by decide)

/-- Indexing into a mapped range. -/
theorem map_range_getD (f : ℕ → ℤ) (M k : ℕ) (hk : k < M) :
    List.getD ((List.range M).map f) k 0 = f k := by
  rw [List.getD_eq_getElem?_getD, List.getElem?_map, List.getElem?_range hk]
  rfl

/-- The `fibonacci` loop invariant: starting from the first `m ≥ 2`
Fibonacci numbers, `j` iterations extend the list to the first `m + j`. -/
theorem fibLoop_invariant : ∀ j m, 2 ≤ m →
    fibLoop ((List.range m).map fun k => (Nat.fib k : ℤ)) j =
      (List.range (m + j)).map fun k => (Nat.fib k : ℤ) := by
  intro j
  induction j with
  | zero => intro m _; simp [fibLoop]
  | succ i ih =>
    intro m hm
    rw [fibLoop]
    have hlen : ((List.range m).map fun k => (Nat.fib k : ℤ)).length = m := by simp
    rw [hlen]
    have h1 : List.getD ((List.range m).map fun k => (Nat.fib k : ℤ)) (m - 1) 0 =
        (Nat.fib (m - 1) : ℤ) := map_range_getD _ m (m - 1) (by omega)
    have h2 : List.getD ((List.range m).map fun k => (Nat.fib k : ℤ)) (m - 2) 0 =
        (Nat.fib (m - 2) : ℤ) := map_range_getD _ m (m - 2) (by omega)
    rw [h1, h2]
    have hfib : (Nat.fib (m - 1) : ℤ) + (Nat.fib (m - 2) : ℤ) = (Nat.fib m : ℤ) := by
      have hm2 : m = (m - 2) + 2 := by omega
      rw [hm2, Nat.fib_add_two]
      have : m - 2 + 2 - 1 = (m - 2) + 1 := by omega
      rw [this]
      push_cast
      ring
    rw [hfib]
    have happ : ((List.range m).map fun k => (Nat.fib k : ℤ)) ++ [(Nat.fib m : ℤ)] =
        (List.range (m + 1)).map fun k => (Nat.fib k : ℤ) := by
      rw [List.range_succ, List.map_append]
      rfl
    rw [happ, ih (m + 1) (by omega)]
    have heq : m + 1 + i = m + (i + 1) := by omega
    rw [heq]

/-- For `n ≥ 1`, `fibonacci n` is the list of the first `n` Fibonacci
numbers. -/
theorem fibonacci_eq (n : ℤ) (h : 1 ≤ n) :
    fibonacci n = (List.range n.toNat).map fun k => (Nat.fib k : ℤ) := by
  by_cases h1 : n = 1
  · subst h1; simp [fibonacci, List.range_succ]
  · by_cases h2 : n = 2
    · subst h2
      norm_num [fibonacci]
      simp [List.range_succ]
    · rw [fibonacci, if_neg (by omega), if_neg h1, if_neg h2]
      have hinit : ([0, 1] : List ℤ) = (List.range 2).map fun k => (Nat.fib k : ℤ) := by
        simp [List.range_succ]
      rw [hinit, fibLoop_invariant (n.toNat - 2) 2 (by omega)]
      have heq : 2 + (n.toNat - 2) = n.toNat := by omega
      rw [heq]

/-!  Claim C2. -/

/-- C2: `fibonacci(n)` returns the first `n` terms of the Fibonacci
sequence starting `0, 1` — the result is empty for `n ≤ 0`, has length `n`
for `n ≥ 1`, its `k`-th entry is the `k`-th Fibonacci number, each later
term is the sum of the two before it, and
`fibonacci(5) = [0, 1, 1, 2, 3]`. -/
theorem fibonacci_first_terms :
    (∀ n : ℤ, n ≤ 0 → fibonacci n = []) ∧
    (∀ n : ℤ, 1 ≤ n → ((fibonacci n).length : ℤ) = n ∧
      (∀ k : ℕ, k < n.toNat → List.getD (fibonacci n) k 0 = (Nat.fib k : ℤ)) ∧
      (∀ k : ℕ, k + 2 < n.toNat →
        List.getD (fibonacci n) (k + 2) 0 =
          List.getD (fibonacci n) k 0 + List.getD (fibonacci n) (k + 1) 0)) ∧
    fibonacci 5 = [0, 1, 1, 2, 3] := by
  refine ⟨fun n hn => by simp [fibonacci, if_pos hn], fun n hn => ?_, by decide⟩
  rw [fibonacci_eq n hn]
  refine ⟨by simp; omega, fun k hk => map_range_getD _ _ k hk, fun k hk => ?_⟩
  rw [map_range_getD _ _ (k + 2) (by omega), map_range_getD _ _ k (by omega),
    map_range_getD _ _ (k + 1) (by omega), Nat.fib_add_two]
  push_cast
  ring

/-- Witness for C2: the hypotheses are discharged at `n = -1` (empty) and
`n = 3` (length and entries). -/
theorem fibonacci_first_terms_witness :
    fibonacci (-1) = [] ∧ ((fibonacci 3).length : ℤ) = 3 := by
  refine ⟨fibonacci_first_terms.1 (-1) (by decide), ?_⟩
  exact (fibonacci_first_terms.2.1 3 (by decide)).1

/-!  Claim C3. -/

/-- C3: `find_primes(limit)` returns exactly the primes `p` with
`2 ≤ p ≤ limit` in increasing order, for every integer `limit`; in
particular `find_primes(10) = [2, 3, 5, 7]`. -/
theorem find_primes_exactly_primes :
    (∀ limit : ℤ, List.Sorted (· < ·) (find_primes limit) ∧
      ∀ p : ℤ, p ∈ find_primes limit ↔ 2 ≤ p ∧ p ≤ limit ∧ Nat.Prime p.toNat) ∧
    find_primes 10 = [2, 3, 5, 7] := by
  refine ⟨fun limit => ⟨?_, fun p => ?_⟩, by decide⟩
  · exact List.Pairwise.filter _
      (List.pairwise_map.mpr ((List.pairwise_lt_range _).imp fun h => by omega))
  · rw [find_primes, List.mem_filter, List.mem_map]
    constructor
    · rintro ⟨⟨k, hk, rfl⟩, hp⟩
      rw [List.mem_range] at hk
      exact ⟨by omega, by omega, (is_prime_iff _).mp hp⟩
    · rintro ⟨hp2, hpl, hp⟩
      refine ⟨⟨(p - 2).toNat, List.mem_range.mpr (by omega), by omega⟩, (is_prime_iff p).mpr hp⟩

/-!  Claim C4. -/

/-- C4: `Calculator.divide(a, b)` raises `ValueError` immediately when
`b == 0`, and then no entry is appended to the history — the error carries
no updated object, the caller's calculator is untouched; when `b != 0` it
returns `a / b` and appends exactly one formatted entry. -/
theorem divide_by_zero_raises :
    ∀ (c : Calculator) (a b : ℚ),
      (b = 0 → c.divide a b = Except.error "Cannot divide by zero") ∧
      (b ≠ 0 → c.divide a b = Except.ok (a / b,
        ⟨c.history ++ [numRepr a ++ " / " ++ numRepr b ++ " = " ++ numRepr (a / b)]⟩)) := by
  intro c a b
  constructor
  · intro h
    simp [Calculator.divide, h]
  · intro h
    simp [Calculator.divide, h]

/-- Witness for C4: both branches at concrete inputs. -/
theorem divide_by_zero_raises_witness :
    Calculator.new.divide 5 0 = Except.error "Cannot divide by zero" ∧
    Calculator.new.divide 6 3 = Except.ok (6 / 3,
      ⟨Calculator.new.history ++
        [numRepr 6 ++ " / " ++ numRepr 3 ++ " = " ++ numRepr (6 / 3)]⟩) :=
  ⟨(divide_by_zero_raises Calculator.new 5 0).1 rfl,
   (divide_by_zero_raises Calculator.new 6 3).2 (by decide)⟩

/-!  Claim C7. -/

/-- C7: `Calculator().add(2, 3)` returns `5` and afterwards `get_history()`
contains the string `"2 + 3 = 5"`; in general each arithmetic method
returns the exact arithmetic result of its operation on its two
arguments. -/
theorem calculator_add_exact :
    (Calculator.new.add 2 3).1 = 5 ∧
    "2 + 3 = 5" ∈ ((Calculator.new.add 2 3).2).get_history ∧
    ∀ (c : Calculator) (a b : ℚ),
      (c.add a b).1 = a + b ∧ (c.subtract a b).1 = a - b ∧
      (c.multiply a b).1 = a * b ∧
      (b ≠ 0 → ∃ c' : Calculator, c.divide a b = Except.ok (a / b, c')) := by
  refine ⟨by norm_num [Calculator.add], ?_, fun c a b => ⟨rfl, rfl, rfl, fun h => ?_⟩⟩
  · have h23 : (2 : ℚ) + 3 = 5 := by norm_num
    simp only [Calculator.add, Calculator.get_history, h23, List.nil_append,
      List.mem_singleton]
    decide
  · exact ⟨_, ((divide_by_zero_raises c a b).2 h)⟩

/-- Witness for C7: the division hypothesis is discharged at `b = 3`. -/
theorem calculator_add_exact_witness :
    ∃ c' : Calculator, Calculator.new.divide 6 3 = Except.ok (6 / 3, c') :=
  (calculator_add_exact.2.2 Calculator.new 6 3).2.2.2 (by decide)

/-!  Claim C9. -/

/-- Each single method call appends exactly its entry (nothing on a
divide-by-zero, which raises first). -/
theorem applyOp_history (c : Calculator) (op : CalcOp) :
    (applyOp c op).history = c.history ++ (opEntry op).toList := by
  cases op with
  | addOp a b => rfl
  | subOp a b => rfl
  | mulOp a b => rfl
  | divOp a b =>
    by_cases h : b = 0
    · simp [applyOp, Calculator.divide, opEntry, h]
    · simp [applyOp, Calculator.divide, opEntry, h]

/-- C9: the `Calculator` history is an append-only log — every successful
`add`/`subtract`/`multiply`/`divide` call appends exactly one formatted
string, a failed `divide` appends nothing, existing entries are never
removed or modified (each call's history extends the previous one), so
after any sequence of calls the history lists every past successful
operation, formatted, in order. -/
theorem history_append_only :
    (∀ (c : Calculator) (ops : List CalcOp),
      (runOps c ops).history = c.history ++ ops.filterMap opEntry) ∧
    (∀ (c : Calculator) (op : CalcOp),
      ∃ t, (applyOp c op).history = c.history ++ t) := by
  constructor
  · intro c ops
    induction ops generalizing c with
    | nil => simp [runOps]
    | cons op ops ih =>
      rw [runOps, ih, applyOp_history, List.filterMap_cons]
      cases h : opEntry op with
      | none => simp [Option.toList]
      | some e => simp [Option.toList]
  · intro c op
    exact ⟨(opEntry op).toList, applyOp_history c op⟩

/-!  Claim C10. -/

/-- C10 (implicit): `get_history` returns a copy, so mutating the returned
list does not change the calculator's internal history — after mutating the
first result with arbitrary contents `m`, the internal list is unchanged
and a second `get_history` call still returns the original contents; the
returned reference is distinct from the internal one. -/
theorem get_history_returns_copy :
    ∀ (s : Store) (c : HCalc), c.historyRef < s.length → ∀ (m : List String)
      (r1 : ℕ) (s1 s2 : Store) (r2 : ℕ) (s3 : Store),
      get_historyRef s c = (r1, s1) → writeRef s1 r1 m = s2 →
      get_historyRef s2 c = (r2, s3) →
      readRef s1 r1 = readRef s c.historyRef ∧
      readRef s2 c.historyRef = readRef s c.historyRef ∧
      readRef s3 r2 = readRef s c.historyRef ∧
      r1 ≠ c.historyRef := by
  intro s c hlt m r1 s1 s2 r2 s3 h1 h2 h3
  rw [get_historyRef, Prod.mk.injEq] at h1 h3
  obtain ⟨hr1, hs1⟩ := h1
  obtain ⟨hr2, hs3⟩ := h3
  subst hr1 hs1 hr2 hs3
  have hread : readRef s2 c.historyRef = readRef s c.historyRef := by
    subst h2
    rw [readRef, readRef, writeRef, List.getD_eq_getElem?_getD,
      List.getD_eq_getElem?_getD, List.getElem?_set_ne (by omega),
      List.getElem?_append]
    rw [if_pos hlt]
  refine ⟨?_, hread, ?_, by omega⟩
  · rw [readRef, List.getD_eq_getElem?_getD, List.getElem?_concat_length]
    rfl
  · rw [readRef, List.getD_eq_getElem?_getD, List.getElem?_concat_length]
    exact hread

/-- Witness for C10: a one-cell store holding the history
`["2 + 3 = 5"]`, mutated with `m = []`. -/
theorem get_history_returns_copy_witness :
    readRef (get_historyRef (writeRef (get_historyRef [["2 + 3 = 5"]] ⟨0⟩).2
        (get_historyRef [["2 + 3 = 5"]] ⟨0⟩).1 []) ⟨0⟩).2
      (get_historyRef (writeRef (get_historyRef [["2 + 3 = 5"]] ⟨0⟩).2
        (get_historyRef [["2 + 3 = 5"]] ⟨0⟩).1 []) ⟨0⟩).1 =
      readRef [["2 + 3 = 5"]] (0 : ℕ) :=
  (get_history_returns_copy [["2 + 3 = 5"]] ⟨0⟩ (by decide) [] _ _ _ _ _
    rfl rfl rfl).2.2.1

/-!  Claim C5: the retry decorator. -/

/-- If every call raises, the loop performs exactly `fuel ≥ 1` invocations
and re-raises the exception of the last one. -/
theorem retryGo_all_fail {E A : Type} (f : ℕ → Except E A)
    (hf : ∀ i, ∃ e, f i = Except.error e) :
    ∀ fuel i e, 1 ≤ fuel → f (i + fuel - 1) = Except.error e →
      retryGo f i fuel = (PyResult.exn e, fuel) := by
  intro fuel
  induction fuel with
  | zero => intro i e h; omega
  | succ k ih =>
    intro i e _ hlast
    obtain ⟨e0, he0⟩ := hf i
    by_cases hk : k = 0
    · subst hk
      simp only [retryGo, he0, if_pos rfl]
      have : i + 1 - 1 = i := by omega
      rw [this] at hlast
      rw [he0] at hlast
      injection hlast with h
      rw [h]
      simp
    · simp only [retryGo, he0, if_neg hk]
      have hsh : i + 1 + k - 1 = i + (k + 1) - 1 := by omega
      rw [ih (i + 1) e (by omega) (by rw [hsh]; exact hlast)]

/-- If the first success is at call `j < fuel`, the loop returns its value
after `j + 1` invocations. -/
theorem retryGo_success {E A : Type} (f : ℕ → Except E A) (a : A) :
    ∀ j fuel i, j < fuel → (∀ t, t < j → ∃ e, f (i + t) = Except.error e) →
      f (i + j) = Except.ok a →
      retryGo f i fuel = (PyResult.ret (some a), j + 1) := by
  intro j
  induction j with
  | zero =>
    intro fuel i hj _ hok
    cases fuel with
    | zero => omega
    | succ k =>
      simp only [Nat.add_zero] at hok
      simp only [retryGo, hok]
  | succ jj ih =>
    intro fuel i hj hfail hok
    cases fuel with
    | zero => omega
    | succ k =>
      obtain ⟨e0, he0⟩ := hfail 0 (by omega)
      simp only [Nat.add_zero] at he0
      have hk : k ≠ 0 := by omega
      simp only [retryGo, he0, if_neg hk]
      have : retryGo f (i + 1) k = (PyResult.ret (some a), jj + 1) := by
        refine ih k (i + 1) (by omega) (fun t ht => ?_) ?_
        · obtain ⟨e, he⟩ := hfail (t + 1) (by omega)
          exact ⟨e, by rw [show i + 1 + t = i + (t + 1) by omega]; exact he⟩
        · rw [show i + 1 + jj = i + (jj + 1) by omega]
          exact hok
      rw [this]

/-- C5 counterexample: the claim quantifies over every `max_attempts`, but
at `max_attempts = 0` (`retry(0)`) the `for attempt in range(0)` loop body
never runs, so the wrapper around a function raising on every call performs
zero invocations and falls through to `return None` instead of re-raising:
the outcome is a normal return, not an exception. -/
theorem retry_zero_counterexample :
    retry 0 alwaysRaises = (PyResult.ret none, 0) ∧
    (retry 0 alwaysRaises).1.isExn = false :=
  ⟨rfl, rfl⟩

/-- C5 (amended): for every `max_attempts ≥ 1`, the wrapper produced by
`retry(max_attempts)` applied to a function that raises on every call
invokes it exactly `max_attempts` times and re-raises the last call's
exception; if the first success is call `j < max_attempts`, the wrapper
returns that call's result (after `j + 1` invocations); and for
`max_attempts ≤ 0` the wrapper invokes the function zero times and returns
`None`. -/
theorem retry_reraises_after_exhausting {E A : Type} (max_attempts : ℤ)
    (f : ℕ → Except E A) :
    (1 ≤ max_attempts → (∀ i, ∃ e, f i = Except.error e) →
      ∀ e, f (max_attempts.toNat - 1) = Except.error e →
        retry max_attempts f = (PyResult.exn e, max_attempts.toNat)) ∧
    (∀ (j : ℕ) (a : A), j < max_attempts.toNat →
      (∀ t, t < j → ∃ e, f t = Except.error e) → f j = Except.ok a →
      retry max_attempts f = (PyResult.ret (some a), j + 1)) ∧
    (max_attempts ≤ 0 → retry max_attempts f = (PyResult.ret none, 0)) := by
  refine ⟨fun hmax hf e hlast => ?_, fun j a hj hfail hok => ?_, fun hmax => ?_⟩
  · exact retryGo_all_fail f hf max_attempts.toNat 0 e (by omega)
      (by rw [show 0 + max_attempts.toNat - 1 = max_attempts.toNat - 1 by omega]; exact hlast)
  · exact retryGo_success f a j max_attempts.toNat 0 hj
      (fun t ht => by simpa using hfail t ht) (by simpa using hok)
  · rw [retry, show max_attempts.toNat = 0 by omega]
    rfl

/-- Witness for C5 (amended): `retry(2)` around a function that always
raises `"boom"` invokes it twice and re-raises `"boom"`. -/
theorem retry_reraises_after_exhausting_witness :
    retry 2 alwaysRaises = (PyResult.exn "boom", 2) :=
  (retry_reraises_after_exhausting 2 alwaysRaises).1 (by decide)
    (fun i => ⟨"boom", rfl⟩) "boom" rfl

/-!  Claim C6. -/

/-- C6: `read_json_file(filepath)` catches a missing file
(`FileNotFoundError`) and a JSON parse error (`json.JSONDecodeError`),
prints a message to the console, and returns the empty mapping `{}` in both
cases; when the file exists and parses it returns the parsed JSON value
(and prints nothing). -/
theorem read_json_file_defaults :
    ∀ (json_load : String → Except String JsonValue) (fs : String → Option String)
      (filepath : String),
      (fs filepath = none →
        read_json_file json_load fs filepath =
          (JsonValue.obj [], ["File " ++ filepath ++ " not found"])) ∧
      (∀ contents e, fs filepath = some contents →
        json_load contents = Except.error e →
        read_json_file json_load fs filepath =
          (JsonValue.obj [], ["Error parsing JSON: " ++ e])) ∧
      (∀ contents v, fs filepath = some contents → json_load contents = Except.ok v →
        read_json_file json_load fs filepath = (v, [])) := by
  intro jl fs fp
  refine ⟨fun h => ?_, fun c e h1 h2 => ?_, fun c v h1 h2 => ?_⟩
  · simp [read_json_file, h]
  · simp [read_json_file, h1, h2]
  · simp [read_json_file, h1, h2]

/-- Witness for C6: a filesystem with no files, at path `"data.json"`. -/
theorem read_json_file_defaults_witness :
    read_json_file (fun _ => Except.ok JsonValue.null) (fun _ => none) "data.json" =
      (JsonValue.obj [], ["File " ++ "data.json" ++ " not found"]) :=
  (read_json_file_defaults (fun _ => Except.ok JsonValue.null)
    (fun _ => none) "data.json").1 rfl

/-!  Claim C8. -/

/-- When `1024 ≤ s`, the loop moves past the current unit, dividing by
`1024.0`. -/
theorem formatLoop_step (s : ℚ) (u : String) (units : List String) (h : 1024 ≤ s) :
    formatLoop s (u :: units) = formatLoop (s / 1024) units := by
  rw [formatLoop, if_neg (not_lt.mpr h)]

/-- When `s < 1024`, the loop returns at the current unit. -/
theorem formatLoop_stop (s : ℚ) (u : String) (units : List String) (h : s < 1024) :
    formatLoop s (u :: units) = formatOneDecimal s ++ " " ++ u := by
  rw [formatLoop, if_pos h]

/-- Unit selection of `format_file_size`: for `1024^k ≤ s < 1024^(k+1)`
with `k ≤ 4` the `k`-th unit is used, with value `s / 1024^k`. -/
theorem formatUnitsAux (s : ℚ) (k : ℕ) (hk : k ≤ 4) (h1 : 1024 ^ k ≤ s)
    (h2 : s < 1024 ^ (k + 1)) :
    format_file_size s =
      formatOneDecimal (s / 1024 ^ k) ++ " " ++
        List.getD ["B", "KB", "MB", "GB", "TB"] k "PB" := by
  interval_cases k <;> norm_num at h1 h2
  · rw [format_file_size, formatLoop_stop _ _ _ h2, pow_zero, div_one]
    rfl
  · rw [format_file_size, formatLoop_step _ _ _ h1,
      formatLoop_stop _ _ _ (by rw [div_lt_iff₀ (by norm_num)]; linarith)]
    norm_num
  · have e1 : s / 1024 / 1024 = s / 1048576 := by norm_num [div_div]
    rw [format_file_size, formatLoop_step _ _ _ (by linarith),
      formatLoop_step _ _ _ (by rw [le_div_iff₀ (by norm_num)]; linarith),
      formatLoop_stop _ _ _ (by rw [e1, div_lt_iff₀ (by norm_num)]; linarith), e1]
    norm_num
  · have e1 : s / 1024 / 1024 = s / 1048576 := by norm_num [div_div]
    have e2 : s / 1024 / 1024 / 1024 = s / 1073741824 := by norm_num [div_div]
    rw [format_file_size, formatLoop_step _ _ _ (by linarith),
      formatLoop_step _ _ _ (by rw [le_div_iff₀ (by norm_num)]; linarith),
      formatLoop_step _ _ _ (by rw [e1, le_div_iff₀ (by norm_num)]; linarith),
      formatLoop_stop _ _ _ (by rw [e2, div_lt_iff₀ (by norm_num)]; linarith), e2]
    norm_num
  · have e1 : s / 1024 / 1024 = s / 1048576 := by norm_num [div_div]
    have e2 : s / 1024 / 1024 / 1024 = s / 1073741824 := by norm_num [div_div]
    have e3 : s / 1024 / 1024 / 1024 / 1024 = s / 1099511627776 := by norm_num [div_div]
    rw [format_file_size, formatLoop_step _ _ _ (by linarith),
      formatLoop_step _ _ _ (by rw [le_div_iff₀ (by norm_num)]; linarith),
      formatLoop_step _ _ _ (by rw [e1, le_div_iff₀ (by norm_num)]; linarith),
      formatLoop_step _ _ _ (by rw [e2, le_div_iff₀ (by norm_num)]; linarith),
      formatLoop_stop _ _ _ (by rw [e3, div_lt_iff₀ (by norm_num)]; linarith), e3]
    norm_num

/-- Sizes of at least `1024^5` fall out of the unit loop and are reported
in `PB`, with value `s / 1024^5`. -/
theorem formatPBAux (s : ℚ) (h : 1024 ^ 5 ≤ s) :
    format_file_size s = formatOneDecimal (s / 1024 ^ 5) ++ " PB" := by
  norm_num at h
  have e1 : s / 1024 / 1024 = s / 1048576 := by norm_num [div_div]
  have e2 : s / 1024 / 1024 / 1024 = s / 1073741824 := by norm_num [div_div]
  have e3 : s / 1024 / 1024 / 1024 / 1024 = s / 1099511627776 := by norm_num [div_div]
  have e4 : s / 1024 / 1024 / 1024 / 1024 / 1024 = s / 1125899906842624 := by
    norm_num [div_div]
  rw [format_file_size, formatLoop_step _ _ _ (by linarith),
    formatLoop_step _ _ _ (by rw [le_div_iff₀ (by norm_num)]; linarith),
    formatLoop_step _ _ _ (by rw [e1, le_div_iff₀ (by norm_num)]; linarith),
    formatLoop_step _ _ _ (by rw [e2, le_div_iff₀ (by norm_num)]; linarith),
    formatLoop_step _ _ _ (by rw [e3, le_div_iff₀ (by norm_num)]; linarith),
    formatLoop, e4]
  norm_num

/-- C8: `format_file_size(1024*1024) = "1.0 MB"`; in general, for
`1024^k ≤ size_bytes < 1024^(k+1)` with `0 ≤ k ≤ 4` the result is
`size_bytes / 1024^k` formatted to one decimal place followed by the `k`-th
unit of `B, KB, MB, GB, TB`, and sizes of at least `1024^5` are reported in
`PB` (value `size_bytes / 1024^5`). -/
theorem format_file_size_units :
    (∀ (s : ℚ) (k : ℕ), k ≤ 4 → 1024 ^ k ≤ s → s < 1024 ^ (k + 1) →
      format_file_size s =
        formatOneDecimal (s / 1024 ^ k) ++ " " ++
          List.getD ["B", "KB", "MB", "GB", "TB"] k "PB") ∧
    (∀ s : ℚ, 1024 ^ 5 ≤ s →
      format_file_size s = formatOneDecimal (s / 1024 ^ 5) ++ " PB") ∧
    format_file_size (1024 * 1024) = "1.0 MB" := by
  refine ⟨formatUnitsAux, formatPBAux, ?_⟩
  rw [format_file_size]
  rw [formatLoop, if_neg (by norm_num)]
  rw [show (1024 * 1024 : ℚ) / 1024 = 1024 by norm_num]
  rw [formatLoop, if_neg (by norm_num)]
  rw [show (1024 : ℚ) / 1024 = 1 by norm_num]
  rw [formatLoop, if_pos (by norm_num)]
  rw [show formatOneDecimal 1 = "1.0" from ?_]
  · rfl
  · rw [formatOneDecimal]
    rw [show (1 : ℚ) * 10 = 10 by norm_num]
    rw [show roundHalfEven 10 = 10 by norm_num [roundHalfEven]]
    norm_num
    decide

/-- Witness for C8: `2048` bytes lie in the `KB` band (`k = 1`), and
`1024^5` bytes are reported in `PB`. -/
theorem format_file_size_units_witness :
    format_file_size 2048 =
      formatOneDecimal (2048 / 1024 ^ 1) ++ " " ++
        List.getD ["B", "KB", "MB", "GB", "TB"] 1 "PB" :=
  format_file_size_units.1 2048 1 (by norm_num) (by norm_num) (by norm_num)
